import Mathlib

/-!
Shallow embedding of the `bromine`/`rmp-ipc` payload codec
(`src/events/payload.rs`) and of the encrypted stream adapter
(`src/protocol/encrypted/io_impl.rs`), with theorems checking the
natural-language specification against the code.

Byte streams are modelled as `List Nat` (each element a byte value),
readers consume from the front and return the unread remainder, and
fallible operations return `Except IPCError`.
-/

set_option maxRecDepth 4000

namespace Bromine

/-- A byte, kept as a natural number. -/
abbrev Byte := Nat

/-- Error kinds relevant to the embedded code: `ioError` models
`std::io::Error` failures (including unexpected EOF from `read_exact`),
`serialization` models payload encode/decode failures such as an unknown
format-id, `cryptoError` models AEAD failures from the cipher. -/
inductive IPCError where
  | ioError
  | serialization
  | cryptoError
  deriving DecidableEq, Repr

/-- Big-endian bytes of a value cast to `u64`, as produced by
`(len as u64).to_be_bytes()`: eight bytes, most significant first.
Extracting bits 56..63 down to 0..7 makes the `as u64` truncation implicit. -/
def u64BeBytes (n : Nat) : List Byte :=
  [n / 2 ^ 56 % 256, n / 2 ^ 48 % 256, n / 2 ^ 40 % 256, n / 2 ^ 32 % 256,
   n / 2 ^ 24 % 256, n / 2 ^ 16 % 256, n / 2 ^ 8 % 256, n % 256]

/-- Big-endian bytes of a value cast to `u32`, four bytes, most
significant first. -/
def u32BeBytes (n : Nat) : List Byte :=
  [n / 2 ^ 24 % 256, n / 2 ^ 16 % 256, n / 2 ^ 8 % 256, n % 256]

/-- Model of `reader.read_u64::<BigEndian>()`: consume eight bytes and
assemble them most-significant-first; error (EOF) on a shorter stream. -/
def readU64Be : List Byte → Except IPCError (Nat × List Byte)
  | b0 :: b1 :: b2 :: b3 :: b4 :: b5 :: b6 :: b7 :: rest =>
      .ok (((((((b0 * 256 + b1) * 256 + b2) * 256 + b3) * 256 + b4) * 256 + b5)
              * 256 + b6) * 256 + b7, rest)
  | _ => .error .ioError

/-- Model of `reader.read_u32::<BigEndian>()`. -/
def readU32Be : List Byte → Except IPCError (Nat × List Byte)
  | b0 :: b1 :: b2 :: b3 :: rest =>
      .ok (((b0 * 256 + b1) * 256 + b2) * 256 + b3, rest)
  | _ => .error .ioError

/-- Model of `reader.read_exact(&mut buf)` for a buffer of length `n`:
return the first `n` bytes and the remainder, error (EOF) when fewer
than `n` bytes are available. -/
def readExact (n : Nat) (l : List Byte) : Except IPCError (List Byte × List Byte) :=
  if n ≤ l.length then .ok (l.take n, l.drop n) else .error .ioError

/-- Modelled from the spec: the `DynamicSerializer` enum of
`src/events/payload_serializer.rs` is not under `src/`; the spec describes
"a fixed enumerated set of serializers negotiated at build time
(e.g., {self-describing binary, compact binary})" selected by a one-byte
format-id. We model the two-member set. -/
inductive DynamicSerializer where
  | messagepack
  | bincode
  deriving DecidableEq, Repr

/-- Format-id byte of a serializer (`self.serializer as u8`). -/
def DynamicSerializer.formatId : DynamicSerializer → Byte
  | .messagepack => 0
  | .bincode => 1

/-- Modelled from the spec: `DynamicSerializer::from_primitive` maps a
format-id back to the serializer of the fixed enumerated set and fails
with a `Serialization` error on an unknown format-id. -/
def DynamicSerializer.from_primitive (id : Nat) : Except IPCError DynamicSerializer :=
  if id = DynamicSerializer.formatId .messagepack then .ok .messagepack
  else if id = DynamicSerializer.formatId .bincode then .ok .bincode
  else .error .serialization

/-- Modelled from the spec: the serializer is an opaque capability; its
`serialize`/`deserialize` functions are parameters of the development.
Data values of the serialized type are abstracted as `Nat`.
`deserialize` receives the whole remaining stream (the source hands the
reader to the serializer and never inspects what is left). -/
structure SerializerImpl where
  serialize : DynamicSerializer → Nat → Except IPCError (List Byte)
  deserialize : DynamicSerializer → List Byte → Except IPCError Nat

/-- The supported payload values: `BytePayload`, `TandemPayload`,
`SerdePayload` (serializer plus data) and the empty payload `()`. -/
inductive Payload where
  | byte (bytes : List Byte)
  | tandem (load1 load2 : Payload)
  | serde (serializer : DynamicSerializer) (data : Nat)
  | empty
  deriving DecidableEq, Repr

/-- The static form (the Rust type) of a payload, which directs decoding. -/
inductive PayloadForm where
  | byteF
  | tandemF (f1 f2 : PayloadForm)
  | serdeF
  | emptyF
  deriving DecidableEq, Repr

/-- The form of a payload value. -/
def Payload.form : Payload → PayloadForm
  | .byte _ => .byteF
  | .tandem p1 p2 => .tandemF p1.form p2.form
  | .serde _ _ => .serdeF
  | .empty => .emptyF

/-- Embedding of `to_payload_bytes`:
`BytePayload` returns its bytes unchanged; `TandemPayload` concatenates
`u64 BE len(b1) ++ b1 ++ u64 BE len(b2) ++ b2` of the encoded inner
payloads; `SerdePayload` prepends the format-id byte to the serializer
output; `()` encodes to the empty vector. -/
def to_payload_bytes (impl : SerializerImpl) : Payload → Except IPCError (List Byte)
  | .byte bs => .ok bs
  | .tandem p1 p2 => do
      let p1Bytes ← to_payload_bytes impl p1
      let p2Bytes ← to_payload_bytes impl p2
      .ok (u64BeBytes p1Bytes.length ++ p1Bytes ++ u64BeBytes p2Bytes.length ++ p2Bytes)
  | .serde s d => do
      let dataBytes ← impl.serialize s d
      .ok (s.formatId :: dataBytes)
  | .empty => .ok []

/-- Embedding of `from_payload_bytes`, directed by the payload form;
returns the decoded payload and the unread remainder of the reader.
`BytePayload` reads to end; `TandemPayload` reads a `u64 BE` length,
that many bytes, again a length and bytes, and runs the inner decoders
on exactly those byte slices (their own leftovers are dropped, as in the
source); `SerdePayload` reads the format-id byte, resolves the
serializer via `from_primitive` and hands the rest to it. The `emptyF`
case is modelled from the spec ("*Empty*: zero-length blob"): no
`EventReceivePayload` impl for `()` is under `src/`; it reads nothing. -/
def from_payload_bytes (impl : SerializerImpl) :
    PayloadForm → List Byte → Except IPCError (Payload × List Byte)
  | .byteF, input => .ok (.byte input, [])
  | .tandemF f1 f2, input => do
      let (p1Length, r1) ← readU64Be input
      let (load1Bytes, r2) ← readExact p1Length r1
      let (p2Length, r3) ← readU64Be r2
      let (load2Bytes, r4) ← readExact p2Length r3
      let (load1, _) ← from_payload_bytes impl f1 load1Bytes
      let (load2, _) ← from_payload_bytes impl f2 load2Bytes
      .ok (.tandem load1 load2, r4)
  | .serdeF, input =>
      match input with
      | [] => .error .ioError
      | formatId :: rest => do
          let serializer ← DynamicSerializer.from_primitive formatId
          let data ← impl.deserialize serializer rest
          .ok (.serde serializer data, [])
  | .emptyF, input => .ok (.empty, input)

/-- Every encoded length that the tandem encoder casts to `u64` fits in a
`u64` (always true on a real machine, where `Vec` lengths are `usize`). -/
def lengthsOk (impl : SerializerImpl) : Payload → Bool
  | .byte _ => true
  | .serde _ _ => true
  | .empty => true
  | .tandem p1 p2 =>
      lengthsOk impl p1 && lengthsOk impl p2 &&
      (match to_payload_bytes impl p1, to_payload_bytes impl p2 with
       | .ok b1, .ok b2 => decide (b1.length < 2 ^ 64) && decide (b2.length < 2 ^ 64)
       | _, _ => true)

/-! The encrypted stream adapter of `src/protocol/encrypted/io_impl.rs`.

Polling is modelled explicitly: each model poll function takes the
current stream state, the arguments of the Rust poll, and one
`IOOutcome` per inner I/O operation that the poll may drive during this
call (the oracle for whether the inner transport is ready, succeeds, or
fails). It returns the poll result together with the updated state.
Panics from `Option::unwrap` on `None` are a distinguished outcome. -/

/-- Outcome of one inner I/O operation during a poll, chosen by the
environment: still pending, completed successfully, or failed. -/
inductive IOOutcome where
  | pending
  | ok
  | ioErr
  deriving DecidableEq, Repr

/-- Result of polling a stored future: ready with a value, or still
pending with the (possibly updated) future to store back. -/
inductive FutPoll (φ : Type) (α : Type) where
  | ready (a : α)
  | pending (f : φ)

/-- Result of one call to a model poll function: `Poll::Ready`,
`Poll::Pending`, or a panic (an `unwrap` of `None`). -/
inductive PollEx (α : Type) where
  | ready (a : α)
  | pending
  | panicked
  deriving DecidableEq, Repr

/-- Modelled from the spec: `CipherBox` of
`src/protocol/encrypted/crypt_handling.rs` is not under `src/`; the spec
treats it as an AEAD capability whose encrypt/decrypt may fail.
Nonce bookkeeping is internal to the capability and not observable here. -/
structure CipherBox where
  encrypt : List Byte → Except IPCError (List Byte)
  decrypt : List Byte → Except IPCError (List Byte)

/-- Modelled from the spec: `EncryptedPackage::into_bytes` frames one
ciphertext as `u32 BE length ‖ ciphertext`. -/
def EncryptedPackage.into_bytes (ciphertext : List Byte) : List Byte :=
  u32BeBytes ciphertext.length ++ ciphertext

/-- Modelled from the spec: `EncryptedPackage::from_async_read` reads one
`u32 BE` length prefix and then that many ciphertext bytes; returns the
ciphertext and the unread remainder of the stream. -/
def EncryptedPackage.from_async_read (stream : List Byte) :
    Except IPCError (List Byte × List Byte) := do
  let (len, rest) ← readU32Be stream
  let (ciphertext, rest2) ← readExact len rest
  .ok (ciphertext, rest2)

/-- The inner write half, abstracted to its observable history: the
completed `write_all` calls (each recorded as the plaintext chunk that
produced the package together with the package bytes on the wire), how
many `flush` calls completed, and whether `shutdown` completed. -/
structure InnerWriter where
  written : List (List Byte × List Byte)
  flushCount : Nat
  isShutdown : Bool
  deriving DecidableEq, Repr

/-- Threshold constant of the write half (`WRITE_BUF_SIZE`). -/
def WRITE_BUF_SIZE : Nat := 1024

/-- Value of `u32::MAX as usize`. -/
def u32Max : Nat := 2 ^ 32 - 1

/-- Embedding of the free function `write_bytes`: encrypt the chunk
(synchronously, at the first poll of the future), then `write_all` the
package `u32 BE len ‖ ciphertext` on the inner writer; the outcome of the
inner write is chosen by the oracle. Returns writer and cipher in every
case, as the source does. -/
def write_bytes (bytes : List Byte) (writer : InnerWriter) (cipher : CipherBox)
    (out : IOOutcome) : FutPoll Unit ((Except IPCError Unit) × InnerWriter × CipherBox) :=
  match cipher.encrypt bytes with
  | .error e => .ready (.error e, writer, cipher)
  | .ok encryptedBytes =>
      match out with
      | .pending => .pending ()
      | .ioErr => .ready (.error .ioError, writer, cipher)
      | .ok => .ready (.ok (),
          { writer with
            written := writer.written ++ [(bytes, EncryptedPackage.into_bytes encryptedBytes)] },
          cipher)

/-- An in-flight `write_bytes(plaintext, writer, cipher)` future
(`fut_write` of the write half). -/
structure WriteFuture where
  plaintext : List Byte
  writer : InnerWriter
  cipher : CipherBox

/-- Poll an in-flight write future. -/
def WriteFuture.poll (f : WriteFuture) (out : IOOutcome) :
    FutPoll WriteFuture ((Except IPCError Unit) × InnerWriter × CipherBox) :=
  match write_bytes f.plaintext f.writer f.cipher out with
  | .ready r => .ready r
  | .pending _ => .pending f

/-- An in-flight flush future (`fut_flush`): `write_bytes` for the
extracted chunk, then `writer.flush()`. `wrotePackage` records whether
the `write_bytes` part has already completed in an earlier poll. -/
structure FlushFuture where
  plaintext : List Byte
  writer : InnerWriter
  cipher : CipherBox
  wrotePackage : Bool

/-- Poll an in-flight flush future; `outW` is the oracle for the inner
`write_all`, `outF` for the inner `flush`. -/
def FlushFuture.poll (f : FlushFuture) (outW outF : IOOutcome) :
    FutPoll FlushFuture ((Except IPCError Unit) × InnerWriter × CipherBox) :=
  if f.wrotePackage then
    match outF with
    | .pending => .pending f
    | .ioErr => .ready (.error .ioError, f.writer, f.cipher)
    | .ok => .ready (.ok (), { f.writer with flushCount := f.writer.flushCount + 1 }, f.cipher)
  else
    match write_bytes f.plaintext f.writer f.cipher outW with
    | .pending _ => .pending f
    | .ready (.error e, w, c) => .ready (.error e, w, c)
    | .ready (.ok _, w, _) =>
        match outF with
        | .pending => .pending { f with wrotePackage := true, writer := w }
        | .ioErr => .ready (.error .ioError, w, f.cipher)
        | .ok => .ready (.ok (), { w with flushCount := w.flushCount + 1 }, f.cipher)

/-- An in-flight `writer.shutdown()` future (`fut_shutdown`); it owns the
writer, which the source never restores to the stream. -/
structure ShutdownFuture where
  writer : InnerWriter

/-- The state of `EncryptedWriteStream`: the inner write half and the
cipher (both `None` while a future owns them), the plaintext buffer, and
the three optional in-flight futures. -/
structure EncryptedWriteStream where
  inner : Option InnerWriter
  cipher : Option CipherBox
  buffer : List Byte
  fut_write : Option WriteFuture
  fut_flush : Option FlushFuture
  fut_shutdown : Option ShutdownFuture

/-- Second half of `poll_write`: poll `fut_write` when present
(restoring writer and cipher and mapping a successful result to
`buf.len()`), else return `Ready(Ok(buf.len()))`. -/
def poll_write_step (st : EncryptedWriteStream) (buf : List Byte) (out : IOOutcome) :
    PollEx (Except IPCError Nat) × EncryptedWriteStream :=
  match st.fut_write with
  | some f =>
      match f.poll out with
      | .ready (result, writer, cipher) =>
          (.ready (result.map fun _ => buf.length),
           { st with inner := some writer, cipher := some cipher, fut_write := none })
      | .pending f' => (.pending, { st with fut_write := some f' })
  | none => (.ready (.ok buf.length), st)

/-- Embedding of `EncryptedWriteStream::poll_write`: when the caller
buffer is non-empty, append it to the internal buffer; if no write
future is in flight and the buffer has reached `WRITE_BUF_SIZE`, extract
`min(u32::MAX, buffer_len)` bytes, take the writer and cipher
(panicking if absent) and start a `write_bytes` future. Then poll the
in-flight future if any, else return `Ready(Ok(buf.len()))`. -/
def poll_write (st₀ : EncryptedWriteStream) (buf : List Byte) (out : IOOutcome) :
    PollEx (Except IPCError Nat) × EncryptedWriteStream :=
  if 0 < buf.length then
    let st1 := { st₀ with buffer := st₀.buffer ++ buf }
    if st1.fut_write.isNone ∧ WRITE_BUF_SIZE ≤ st1.buffer.length then
      match st1.inner, st1.cipher with
      | some writer, some cipher =>
          let maxCopy := min u32Max st1.buffer.length
          let plaintext := st1.buffer.take maxCopy
          poll_write_step
            { st1 with
              buffer := st1.buffer.drop maxCopy, inner := none, cipher := none,
              fut_write := some ⟨plaintext, writer, cipher⟩ } buf out
      | _, _ => (.panicked, st1)
    else
      poll_write_step st1 buf out
  else
    poll_write_step st₀ buf out

/-- Second half of `poll_flush`: `self.fut_flush.as_mut().unwrap()` —
panics when no flush future is in flight; otherwise polls it, restoring
writer and cipher on completion. -/
def poll_flush_step (st : EncryptedWriteStream) (outW outF : IOOutcome) :
    PollEx (Except IPCError Unit) × EncryptedWriteStream :=
  match st.fut_flush with
  | none => (.panicked, st)
  | some f =>
      match f.poll outW outF with
      | .ready (result, writer, cipher) =>
          (.ready result,
           { st with inner := some writer, cipher := some cipher, fut_flush := none })
      | .pending f' => (.pending, { st with fut_flush := some f' })

/-- Embedding of `EncryptedWriteStream::poll_flush`: when the buffer is
non-empty and no flush future is in flight, extract
`min(u32::MAX, buffer_len)` bytes, take writer and cipher (panicking if
absent) and start the write-then-flush future; then unconditionally
unwrap and poll `fut_flush`. -/
def poll_flush (st₀ : EncryptedWriteStream) (outW outF : IOOutcome) :
    PollEx (Except IPCError Unit) × EncryptedWriteStream :=
  if 0 < st₀.buffer.length ∧ st₀.fut_flush.isNone then
    match st₀.inner, st₀.cipher with
    | some writer, some cipher =>
        let maxCopy := min u32Max st₀.buffer.length
        let plaintext := st₀.buffer.take maxCopy
        poll_flush_step
          { st₀ with
            buffer := st₀.buffer.drop maxCopy, inner := none, cipher := none,
            fut_flush := some ⟨plaintext, writer, cipher, false⟩ } outW outF
    | _, _ => (.panicked, st₀)
  else
    poll_flush_step st₀ outW outF

/-- Embedding of `EncryptedWriteStream::poll_shutdown`: with no shutdown
future in flight, run `poll_flush`; on `Ready(Ok)` take the writer
(panicking if absent), store a `writer.shutdown()` future and return
`Pending`; on `Ready(Err)` return the error; on `Pending` return
`Pending`. With a shutdown future in flight, poll it (`outS` oracle) and
return its result, clearing the future. -/
def poll_shutdown (st₀ : EncryptedWriteStream) (outW outF outS : IOOutcome) :
    PollEx (Except IPCError Unit) × EncryptedWriteStream :=
  match st₀.fut_shutdown with
  | none =>
      match poll_flush st₀ outW outF with
      | (.panicked, st) => (.panicked, st)
      | (.pending, st) => (.pending, st)
      | (.ready (.error e), st) => (.ready (.error e), st)
      | (.ready (.ok _), st) =>
          match st.inner with
          | some writer =>
              (.pending, { st with inner := none, fut_shutdown := some ⟨writer⟩ })
          | none => (.panicked, st)
  | some _ =>
      match outS with
      | .pending => (.pending, st₀)
      | .ioErr => (.ready (.error .ioError), { st₀ with fut_shutdown := none })
      | .ok =>
          (.ready (.ok ()), { st₀ with fut_shutdown := none })

/-- An in-flight read future (`fut` of the read half): it owns the inner
read half and the cipher. -/
structure ReadFuture where
  reader : List Byte
  cipher : CipherBox

/-- Poll an in-flight read future: read one package
(`EncryptedPackage::from_async_read`) from the owned reader and decrypt
it; the oracle decides whether the inner reads are ready. Returns the
result, the reader (advanced past the package on success) and the
cipher, as the source future does. -/
def ReadFuture.poll (f : ReadFuture) (out : IOOutcome) :
    FutPoll ReadFuture ((Except IPCError (List Byte)) × List Byte × CipherBox) :=
  match out with
  | .pending => .pending f
  | .ioErr => .ready (.error .ioError, f.reader, f.cipher)
  | .ok =>
      match EncryptedPackage.from_async_read f.reader with
      | .error e => .ready (.error e, f.reader, f.cipher)
      | .ok (ciphertext, rest) =>
          match f.cipher.decrypt ciphertext with
          | .ok bytes => .ready (.ok bytes, rest, f.cipher)
          | .error e => .ready (.error e, rest, f.cipher)

/-- The state of `EncryptedReadStream`: the inner read half (the not yet
consumed incoming byte stream) and the cipher (both `None` while the
future owns them), the buffered plaintext `remaining`, and the optional
in-flight read future. -/
structure EncryptedReadStream where
  inner : Option (List Byte)
  cipher : Option CipherBox
  remaining : List Byte
  fut : Option ReadFuture

/-- Second half of `poll_read`: poll the in-flight future. On success
append the plaintext to `remaining`, copy as much as still fits into the
caller's buffer, clear the future, and return `Ready(Ok(()))` only when
the caller's buffer is now completely full, else `Pending`. On failure
restore reader and cipher and return the error (the source leaves `fut`
set in this branch). The triple returned is (poll result, bytes placed
into the caller's buffer during this call, new state). -/
def poll_read_step (st : EncryptedReadStream) (filled : List Byte) (capLeft : Nat)
    (out : IOOutcome) :
    PollEx (Except IPCError Unit) × List Byte × EncryptedReadStream :=
  match st.fut with
  | none => (.ready (.ok ()), filled, st)
  | some f =>
      match f.poll out with
      | .pending f' => (.pending, filled, { st with fut := some f' })
      | .ready (.error e, reader, cipher) =>
          (.ready (.error e), filled,
           { st with inner := some reader, cipher := some cipher })
      | .ready (.ok bytes, reader, cipher) =>
          let remaining := st.remaining ++ bytes
          let maxCopy := min remaining.length capLeft
          (if capLeft - maxCopy = 0 then .ready (.ok ()) else .pending,
           filled ++ remaining.take maxCopy,
           { st with
             inner := some reader, cipher := some cipher,
             remaining := remaining.drop maxCopy, fut := none })

/-- Embedding of `EncryptedReadStream::poll_read` for a caller buffer
with `cap` free bytes: when no future is in flight, copy
`min(cap, remaining.len())` buffered plaintext into the caller's buffer
and, if the buffer is still not full, take reader and cipher (panicking
if absent) and start a read-package future. Then poll the in-flight
future if any; with no future, return `Ready(Ok(()))`. -/
def poll_read (st₀ : EncryptedReadStream) (cap : Nat) (out : IOOutcome) :
    PollEx (Except IPCError Unit) × List Byte × EncryptedReadStream :=
  match st₀.fut with
  | some _ => poll_read_step st₀ [] cap out
  | none =>
      let maxCopy := min cap st₀.remaining.length
      let filled := st₀.remaining.take maxCopy
      let st1 := { st₀ with remaining := st₀.remaining.drop maxCopy }
      if 0 < cap - maxCopy then
        match st1.inner, st1.cipher with
        | some reader, some cipher =>
            poll_read_step
              { st1 with inner := none, cipher := none, fut := some ⟨reader, cipher⟩ }
              filled (cap - maxCopy) out
        | _, _ => (.panicked, filled, st1)
      else
        (.ready (.ok ()), filled, st1)

/-! Helper lemmas. -/

theorem except_bind_ok {ε α β : Type} (a : α) (f : α → Except ε β) :
    (Except.ok a >>= f : Except ε β) = f a := rfl

theorem except_bind_error {ε α β : Type} (e : ε) (f : α → Except ε β) :
    (Except.error e >>= f : Except ε β) = .error e := rfl

theorem readU64Be_u64BeBytes (n : Nat) (rest : List Byte) :
    readU64Be (u64BeBytes n ++ rest) = .ok (n % 2 ^ 64, rest) := by
  simp only [u64BeBytes, List.cons_append, List.nil_append, readU64Be,
    Except.ok.injEq, Prod.mk.injEq, and_true]
  omega

theorem readExact_exact (l rest : List Byte) :
    readExact l.length (l ++ rest) = .ok (l, rest) := by
  simp [readExact, List.take_left, List.drop_left]

theorem readExact_all (l : List Byte) : readExact l.length l = .ok (l, []) := by
  simp [readExact]

theorem from_primitive_formatId (s : DynamicSerializer) :
    DynamicSerializer.from_primitive s.formatId = .ok s := by
  cases s <;> simp [DynamicSerializer.from_primitive, DynamicSerializer.formatId]

/-- A concrete serializer instantiation used to exercise the theorems:
it encodes a data value `n` as `n` zero bytes and decodes a byte string
to its length. -/
def unaryImpl : SerializerImpl where
  serialize := fun _ d => .ok (List.replicate d 0)
  deserialize := fun _ l => .ok l.length

theorem unaryImpl_roundtrip (s : DynamicSerializer) (d : Nat) (bs : List Byte)
    (h : unaryImpl.serialize s d = .ok bs) : unaryImpl.deserialize s bs = .ok d := by
  simp only [unaryImpl, Except.ok.injEq] at h
  subst h
  simp [unaryImpl]

/-- C1: round-trip of the payload codec. For every payload of a supported
form whose `u64` length casts do not truncate and over a serializer whose
own encode/decode round-trips, decoding the bytes produced by encoding
succeeds, consumes the whole input, and yields the original payload with
byte-equal inner contents. -/
theorem payload_roundtrip (impl : SerializerImpl)
    (hser : ∀ s d bs, impl.serialize s d = .ok bs → impl.deserialize s bs = .ok d)
    (p : Payload) (hlen : lengthsOk impl p = true) (bs : List Byte)
    (henc : to_payload_bytes impl p = .ok bs) :
    from_payload_bytes impl p.form bs = .ok (p, []) := by
  induction p generalizing bs with
  | byte l =>
      simp only [to_payload_bytes, Except.ok.injEq] at henc
      subst henc
      simp [Payload.form, from_payload_bytes]
  | tandem p1 p2 ih1 ih2 =>
      simp only [to_payload_bytes] at henc
      cases h1 : to_payload_bytes impl p1 with
      | error e => rw [h1] at henc; simp [except_bind_error] at henc
      | ok b1 =>
        cases h2 : to_payload_bytes impl p2 with
        | error e => rw [h1, h2] at henc; simp [except_bind_ok, except_bind_error] at henc
        | ok b2 =>
          rw [h1, h2] at henc
          simp only [except_bind_ok, Except.ok.injEq] at henc
          subst henc
          simp only [lengthsOk, h1, h2, Bool.and_eq_true, decide_eq_true_eq] at hlen
          obtain ⟨⟨hl1, hl2⟩, hb1, hb2⟩ := hlen
          simp only [Payload.form, from_payload_bytes]
          rw [show u64BeBytes b1.length ++ b1 ++ u64BeBytes b2.length ++ b2 =
                u64BeBytes b1.length ++ (b1 ++ (u64BeBytes b2.length ++ b2)) by
              simp [List.append_assoc]]
          rw [readU64Be_u64BeBytes, except_bind_ok, Nat.mod_eq_of_lt hb1]
          rw [readExact_exact, except_bind_ok]
          rw [readU64Be_u64BeBytes, except_bind_ok, Nat.mod_eq_of_lt hb2]
          rw [readExact_all, except_bind_ok]
          rw [ih1 hl1 b1 h1, except_bind_ok, ih2 hl2 b2 h2, except_bind_ok]
  | serde s d =>
      simp only [to_payload_bytes] at henc
      cases hs : impl.serialize s d with
      | error e => rw [hs] at henc; simp [except_bind_error] at henc
      | ok db =>
        rw [hs] at henc
        simp only [except_bind_ok, Except.ok.injEq] at henc
        subst henc
        simp only [Payload.form, from_payload_bytes]
        rw [from_primitive_formatId, except_bind_ok, hser s d db hs, except_bind_ok]
  | empty =>
      simp only [to_payload_bytes, Except.ok.injEq] at henc
      subst henc
      simp [Payload.form, from_payload_bytes]

/-- A concrete payload exercising every supported form. -/
def c1Payload : Payload :=
  .tandem (.byte [1, 2, 3]) (.tandem (.serde .messagepack 2) .empty)

/-- The encoding of `c1Payload` under `unaryImpl`. -/
def c1Bytes : List Byte :=
  ((to_payload_bytes unaryImpl c1Payload).toOption).getD []

/-- Witness for C1 at a concrete nested payload. -/
theorem payload_roundtrip_witness :
    lengthsOk unaryImpl c1Payload = true ∧
    to_payload_bytes unaryImpl c1Payload = .ok c1Bytes ∧
    from_payload_bytes unaryImpl c1Payload.form c1Bytes = .ok (c1Payload, []) :=
  ⟨by decide, by rfl,
   payload_roundtrip unaryImpl unaryImpl_roundtrip c1Payload (by decide) c1Bytes (by rfl)⟩

/-- C2: the tandem encoder emits exactly
`u64 BE len(b1) ‖ b1 ‖ u64 BE len(b2) ‖ b2` for the already-encoded inner
payload bytes `b1` and `b2`. -/
theorem tandem_to_payload_bytes_concat (impl : SerializerImpl) (p1 p2 : Payload)
    (b1 b2 : List Byte) (h1 : to_payload_bytes impl p1 = .ok b1)
    (h2 : to_payload_bytes impl p2 = .ok b2) :
    to_payload_bytes impl (.tandem p1 p2) =
      .ok (u64BeBytes b1.length ++ b1 ++ u64BeBytes b2.length ++ b2) := by
  simp [to_payload_bytes, h1, h2, except_bind_ok]

/-- Witness for C2 at concrete inner payloads. -/
theorem tandem_to_payload_bytes_concat_witness :
    to_payload_bytes unaryImpl (.byte [1, 2]) = .ok [1, 2] ∧
    to_payload_bytes unaryImpl (.byte [3]) = .ok [3] ∧
    to_payload_bytes unaryImpl (.tandem (.byte [1, 2]) (.byte [3])) =
      .ok (u64BeBytes ([1, 2] : List Byte).length ++ [1, 2] ++
        u64BeBytes ([3] : List Byte).length ++ [3]) :=
  ⟨rfl, rfl,
   tandem_to_payload_bytes_concat unaryImpl (.byte [1, 2]) (.byte [3]) [1, 2] [3] rfl rfl⟩

/-- C7: decoding a `SerdePayload` whose leading byte is not the
format-id of any serializer of the fixed enumerated set fails with a
`Serialization` error, and decoding succeeds only when the leading byte
is the format-id of a known serializer. -/
theorem serde_unknown_format_id (impl : SerializerImpl) (input : List Byte) :
    (∀ b rest, input = b :: rest → (∀ s : DynamicSerializer, s.formatId ≠ b) →
      from_payload_bytes impl .serdeF input = .error .serialization) ∧
    (∀ pr, from_payload_bytes impl .serdeF input = .ok pr →
      ∃ b rest s, input = b :: rest ∧ DynamicSerializer.formatId s = b) := by
  constructor
  · rintro b rest rfl hunk
    have h0 : b ≠ 0 := Ne.symm (hunk .messagepack)
    have h1 : b ≠ 1 := Ne.symm (hunk .bincode)
    simp [from_payload_bytes, DynamicSerializer.from_primitive,
      DynamicSerializer.formatId, h0, h1, except_bind_error]
  · intro pr hok
    cases input with
    | nil => simp [from_payload_bytes] at hok
    | cons b rest =>
        refine ⟨b, rest, ?_⟩
        by_cases h0 : b = 0
        · exact ⟨.messagepack, rfl, h0.symm⟩
        · by_cases h1 : b = 1
          · exact ⟨.bincode, rfl, h1.symm⟩
          · exfalso
            simp [from_payload_bytes, DynamicSerializer.from_primitive,
              DynamicSerializer.formatId, h0, h1, except_bind_error] at hok

/-- Witness for C7 at the concrete unknown format-id 9. -/
theorem serde_unknown_format_id_witness :
    DynamicSerializer.formatId .messagepack ≠ 9 ∧
    DynamicSerializer.formatId .bincode ≠ 9 ∧
    from_payload_bytes unaryImpl .serdeF [9] = .error .serialization :=
  ⟨by decide, by decide,
   (serde_unknown_format_id unaryImpl [9]).1 9 [] rfl (by intro s; cases s <;> decide)⟩

/-! Theorems about the encrypted write stream. -/

theorem except_map_ok {ε α β : Type} (f : α → β) (a : α) :
    (Except.ok a : Except ε α).map f = .ok (f a) := rfl

theorem except_map_error {ε α β : Type} (f : α → β) (e : ε) :
    (Except.error e : Except ε α).map f = .error e := rfl

/-- An identity cipher used to exercise the theorems. -/
def idCipher : CipherBox where
  encrypt := fun b => .ok b
  decrypt := fun b => .ok b

/-- A cipher that always fails, used to exercise the error paths. -/
def failCipher : CipherBox where
  encrypt := fun _ => .error .cryptoError
  decrypt := fun _ => .error .cryptoError

/-- A fresh inner write half. -/
def writer0 : InnerWriter := ⟨[], 0, false⟩

/-- A quiescent write stream over a fresh writer and the identity cipher. -/
def baseWriteSt : EncryptedWriteStream :=
  ⟨some writer0, some idCipher, [], none, none, none⟩

/-- C8: `poll_flush` on a write stream whose plaintext buffer is empty
and which has no in-flight flush future unwraps a `None` future and
panics instead of returning `Ready(Ok(()))`. -/
theorem poll_flush_empty_panics (st : EncryptedWriteStream) (outW outF : IOOutcome)
    (hbuf : st.buffer = []) (hfut : st.fut_flush = none) :
    poll_flush st outW outF = (.panicked, st) := by
  simp [poll_flush, hbuf, hfut, poll_flush_step]

/-- Witness for C8 at a concrete quiescent stream. -/
theorem poll_flush_empty_panics_witness :
    baseWriteSt.buffer = [] ∧
    poll_flush baseWriteSt .ok .ok = (.panicked, baseWriteSt) :=
  ⟨rfl, poll_flush_empty_panics baseWriteSt .ok .ok rfl rfl⟩

/-- C10: a `poll_write` that leaves the internal buffer strictly below
`WRITE_BUF_SIZE`, with no write future in flight, returns
`Ready(Ok(buf.len()))` and only appends the caller bytes to the buffer:
the inner writer, the cipher and all futures are untouched, so nothing
is encrypted and nothing reaches the inner transport. -/
theorem poll_write_below_threshold (st : EncryptedWriteStream) (buf : List Byte)
    (out : IOOutcome) (hfut : st.fut_write = none)
    (hlen : st.buffer.length + buf.length < WRITE_BUF_SIZE) :
    poll_write st buf out =
      (.ready (.ok buf.length), { st with buffer := st.buffer ++ buf }) := by
  obtain ⟨inn, ciph, buffer, fw, ff, fs⟩ := st
  simp only at hfut hlen
  subst hfut
  rcases Nat.eq_zero_or_pos buf.length with hb | hb
  · have hnil : buf = [] := List.length_eq_zero.mp hb
    subst hnil
    simp [poll_write, poll_write_step]
  · have hth : ¬ (WRITE_BUF_SIZE ≤ buffer.length + buf.length) := by omega
    simp [poll_write, hb, List.length_append, hth, poll_write_step]

/-- Witness for C10 at a concrete small write. -/
theorem poll_write_below_threshold_witness :
    baseWriteSt.fut_write = none ∧
    baseWriteSt.buffer.length + ([1, 2, 3] : List Byte).length < WRITE_BUF_SIZE ∧
    poll_write baseWriteSt [1, 2, 3] .ok =
      (.ready (.ok 3), { baseWriteSt with buffer := [1, 2, 3] }) :=
  ⟨rfl, by decide,
   poll_write_below_threshold baseWriteSt [1, 2, 3] .ok rfl (by decide)⟩

theorem poll_flush_trigger_eval (st : EncryptedWriteStream) (w : InnerWriter) (c : CipherBox)
    (ct : List Byte) (hbuf : st.buffer ≠ []) (hfl : st.fut_flush = none)
    (hin : st.inner = some w) (hc : st.cipher = some c)
    (henc : c.encrypt (st.buffer.take (min u32Max st.buffer.length)) = .ok ct) :
    poll_flush st .ok .ok =
      (.ready (.ok ()),
       { st with
         buffer := st.buffer.drop (min u32Max st.buffer.length),
         inner := some { w with
           written := w.written ++ [(st.buffer.take (min u32Max st.buffer.length),
             EncryptedPackage.into_bytes ct)],
           flushCount := w.flushCount + 1 },
         cipher := some c, fut_flush := none }) := by
  obtain ⟨inn, ciph, buffer, fw, ff, fs⟩ := st
  simp only at hbuf hfl hin hc henc
  subst hfl hin hc
  have hpos : 0 < buffer.length := List.length_pos.mpr hbuf
  simp [poll_flush, hpos, poll_flush_step, FlushFuture.poll, write_bytes, henc]

/-- A quiescent write stream whose plaintext buffer holds one byte more
than `u32::MAX`: a single caller write of this size puts the write half
into this state (`poll_write` chunks at most `u32::MAX` bytes and with
an unready inner writer leaves the rest buffered; a flush-only user
reaches it directly). -/
def hugeFlushSt : EncryptedWriteStream :=
  ⟨some writer0, some idCipher, List.replicate (2 ^ 32) 0, none, none, none⟩

/-- C5 counterexample: on a stream whose non-empty buffer holds
`2 ^ 32` bytes, one `poll_flush` driven to completion returns
`Ready(Ok(()))` yet leaves one byte in the plaintext buffer — the flush
writes only `min(u32::MAX, buffer_len)` bytes, not all remaining
plaintext, so the buffer is not left empty. -/
theorem poll_flush_drains_counterexample :
    (poll_flush hugeFlushSt .ok .ok).1 = .ready (.ok ()) ∧
    (poll_flush hugeFlushSt .ok .ok).2.buffer = List.replicate 1 0 ∧
    List.replicate 1 (0 : Byte) ≠ [] := by
  have hbuf : hugeFlushSt.buffer ≠ [] := by
    apply List.length_pos.mp
    show 0 < (List.replicate (2 ^ 32) (0 : Byte)).length
    rw [List.length_replicate]
    omega
  have h := poll_flush_trigger_eval hugeFlushSt writer0 idCipher
      (hugeFlushSt.buffer.take (min u32Max hugeFlushSt.buffer.length))
      hbuf rfl rfl rfl rfl
  have hmin : (min u32Max (2 ^ 32) : Nat) = 2 ^ 32 - 1 := by
    simp only [u32Max]
    omega
  refine ⟨?_, ?_, ?_⟩
  · rw [h]
  · rw [h]
    simp only [hugeFlushSt]
    rw [List.length_replicate, hmin, List.drop_replicate]
    rw [show (2 ^ 32 - (2 ^ 32 - 1) : Nat) = 1 from by omega]
  · intro hcon
    have hlen := congrArg List.length hcon
    rw [List.length_replicate] at hlen
    simp at hlen

/-- C5 amended: on a quiescent write stream (no in-flight flush future,
writer and cipher owned by the stream) with a non-empty buffer and a
responsive inner writer, driving `poll_flush` to completion encrypts
and writes the first `min(u32::MAX, buffer_len)` buffered bytes as one
final length-prefixed package, then flushes the inner writer, leaving
the remainder in the buffer — which is empty exactly when the buffer
held at most `u32::MAX` bytes. -/
theorem poll_flush_drains_capped (st : EncryptedWriteStream) (w : InnerWriter) (c : CipherBox)
    (ct : List Byte) (hbuf : st.buffer ≠ []) (hfl : st.fut_flush = none)
    (hin : st.inner = some w) (hc : st.cipher = some c)
    (henc : c.encrypt (st.buffer.take (min u32Max st.buffer.length)) = .ok ct) :
    poll_flush st .ok .ok =
      (.ready (.ok ()),
       { st with
         buffer := st.buffer.drop (min u32Max st.buffer.length),
         inner := some { w with
           written := w.written ++ [(st.buffer.take (min u32Max st.buffer.length),
             EncryptedPackage.into_bytes ct)],
           flushCount := w.flushCount + 1 },
         cipher := some c, fut_flush := none }) ∧
    (st.buffer.drop (min u32Max st.buffer.length) = [] ↔ st.buffer.length ≤ u32Max) := by
  refine ⟨poll_flush_trigger_eval st w c ct hbuf hfl hin hc henc, ?_⟩
  rw [List.drop_eq_nil_iff]
  omega

/-- Witness for the amended C5 at a concrete two-byte buffer: the whole
buffer fits under the cap, so the final package carries it all and the
buffer is left empty. -/
theorem poll_flush_drains_capped_witness :
    poll_flush { baseWriteSt with buffer := [7, 8] } .ok .ok =
      (.ready (.ok ()),
       { baseWriteSt with
         buffer := [],
         inner := some { writer0 with
           written := writer0.written ++ [([7, 8], EncryptedPackage.into_bytes [7, 8])],
           flushCount := writer0.flushCount + 1 } }) ∧
    (([7, 8] : List Byte).drop (min u32Max ([7, 8] : List Byte).length) = [] ↔
      ([7, 8] : List Byte).length ≤ u32Max) := by
  have h := poll_flush_drains_capped { baseWriteSt with buffer := [7, 8] } writer0 idCipher
      (([7, 8] : List Byte).take (min u32Max ([7, 8] : List Byte).length))
      (by decide) rfl rfl rfl rfl
  exact ⟨h.1, h.2⟩

theorem poll_flush_step_preserves_fut_shutdown (st : EncryptedWriteStream)
    (outW outF : IOOutcome) :
    (poll_flush_step st outW outF).2.fut_shutdown = st.fut_shutdown := by
  unfold poll_flush_step
  cases hf : st.fut_flush with
  | none => rfl
  | some f =>
      cases hp : f.poll outW outF with
      | ready a => obtain ⟨r, w2, c2⟩ := a; simp [hp]
      | pending f' => simp [hp]

theorem poll_flush_preserves_fut_shutdown (st : EncryptedWriteStream)
    (outW outF : IOOutcome) :
    (poll_flush st outW outF).2.fut_shutdown = st.fut_shutdown := by
  unfold poll_flush
  by_cases hcond : 0 < st.buffer.length ∧ st.fut_flush.isNone
  · rw [if_pos hcond]
    cases hi : st.inner with
    | none => cases hc : st.cipher <;> rfl
    | some w =>
        cases hc : st.cipher with
        | none => rfl
        | some c => exact poll_flush_step_preserves_fut_shutdown _ outW outF
  · rw [if_neg hcond]
    exact poll_flush_step_preserves_fut_shutdown st outW outF

/-- C6: `poll_shutdown` with no in-flight shutdown future first runs
`poll_flush`; when the flush fails the error is returned, the state is
exactly the flush's state and no shutdown future has been created (the
inner writer is not shut down); when the flush is still pending nothing
is shut down either; only when the flush returns `Ok` is the writer
moved into a freshly created shutdown future (with `Pending` returned,
the actual inner shutdown running on later polls). -/
theorem poll_shutdown_flush_first (st : EncryptedWriteStream)
    (outW outF outS : IOOutcome) (hsd : st.fut_shutdown = none) :
    (∀ e st1, poll_flush st outW outF = (.ready (.error e), st1) →
      poll_shutdown st outW outF outS = (.ready (.error e), st1) ∧
      st1.fut_shutdown = none) ∧
    (∀ st1, poll_flush st outW outF = (.pending, st1) →
      poll_shutdown st outW outF outS = (.pending, st1) ∧
      st1.fut_shutdown = none) ∧
    (∀ st1 w, poll_flush st outW outF = (.ready (.ok ()), st1) → st1.inner = some w →
      poll_shutdown st outW outF outS =
        (.pending, { st1 with inner := none, fut_shutdown := some ⟨w⟩ })) := by
  refine ⟨?_, ?_, ?_⟩
  · intro e st1 h
    constructor
    · unfold poll_shutdown
      rw [hsd, h]
    · have := poll_flush_preserves_fut_shutdown st outW outF
      rw [h] at this
      rw [this, hsd]
  · intro st1 h
    constructor
    · unfold poll_shutdown
      rw [hsd, h]
    · have := poll_flush_preserves_fut_shutdown st outW outF
      rw [h] at this
      rw [this, hsd]
  · intro st1 w h hw
    unfold poll_shutdown
    rw [hsd, h]
    simp [hw]

/-- The writer after the clean two-byte flush exercised below. -/
def flushedWriter : InnerWriter := ⟨[([7, 8], EncryptedPackage.into_bytes [7, 8])], 1, false⟩

/-- The write stream after the clean two-byte flush exercised below. -/
def flushedSt : EncryptedWriteStream := ⟨some flushedWriter, some idCipher, [], none, none, none⟩

/-- Witness for C6 at two concrete streams: one whose cipher fails (the
flush error is propagated and no shutdown future appears) and one that
flushes cleanly (the writer moves into the shutdown future). -/
theorem poll_shutdown_flush_first_witness :
    poll_flush ⟨some writer0, some failCipher, [1], none, none, none⟩ .ok .ok =
      (.ready (.error .cryptoError),
       ⟨some writer0, some failCipher, [], none, none, none⟩) ∧
    poll_shutdown ⟨some writer0, some failCipher, [1], none, none, none⟩ .ok .ok .ok =
      (.ready (.error .cryptoError),
       ⟨some writer0, some failCipher, [], none, none, none⟩) ∧
    poll_flush { baseWriteSt with buffer := [7, 8] } .ok .ok =
      (.ready (.ok ()), flushedSt) ∧
    poll_shutdown { baseWriteSt with buffer := [7, 8] } .ok .ok .ok =
      (.pending, { flushedSt with inner := none, fut_shutdown := some ⟨flushedWriter⟩ }) :=
  ⟨rfl,
   ((poll_shutdown_flush_first ⟨some writer0, some failCipher, [1], none, none, none⟩
       .ok .ok .ok rfl).1 .cryptoError
     ⟨some writer0, some failCipher, [], none, none, none⟩ rfl).1,
   rfl,
   (poll_shutdown_flush_first { baseWriteSt with buffer := [7, 8] } .ok .ok .ok rfl).2.2
     flushedSt flushedWriter rfl rfl⟩

theorem poll_write_trigger_eval (st : EncryptedWriteStream) (w : InnerWriter) (c : CipherBox)
    (buf ct : List Byte) (hfw : st.fut_write = none) (hin : st.inner = some w)
    (hc : st.cipher = some c) (hb : 0 < buf.length)
    (hth : WRITE_BUF_SIZE ≤ st.buffer.length + buf.length)
    (henc : c.encrypt ((st.buffer ++ buf).take (min u32Max (st.buffer.length + buf.length)))
      = .ok ct) :
    poll_write st buf .ok =
      (.ready (.ok buf.length),
       { st with
         buffer := (st.buffer ++ buf).drop (min u32Max (st.buffer.length + buf.length)),
         inner := some { w with written := w.written ++
           [((st.buffer ++ buf).take (min u32Max (st.buffer.length + buf.length)),
             EncryptedPackage.into_bytes ct)] },
         cipher := some c, fut_write := none }) := by
  obtain ⟨inn, ciph, buffer, fw, ff, fs⟩ := st
  simp only at hfw hin hc hth henc
  subst hfw hin hc
  simp [poll_write, hb, List.length_append, hth, poll_write_step, WriteFuture.poll,
    write_bytes, henc, except_map_ok]

/-- C3 counterexample: one `poll_write` of 1025 bytes on a quiescent
stream with an empty buffer emits a single package whose plaintext is
all 1025 bytes — strictly more than `WRITE_BUF_SIZE = 1024`. -/
theorem package_size_counterexample :
    ((poll_write baseWriteSt (List.replicate 1025 0) .ok).2.inner.map
       fun w => w.written.map fun pr => pr.1.length) = some [1025] ∧
    ¬ (1025 ≤ WRITE_BUF_SIZE) := by
  constructor
  · have henc : idCipher.encrypt ((baseWriteSt.buffer ++ List.replicate 1025 0).take
        (min u32Max (baseWriteSt.buffer.length + (List.replicate 1025 0 : List Byte).length)))
        = Except.ok ((baseWriteSt.buffer ++ List.replicate 1025 0).take
          (min u32Max (baseWriteSt.buffer.length +
            (List.replicate 1025 0 : List Byte).length))) := rfl
    have hb : 0 < (List.replicate 1025 (0 : Byte)).length := by
      rw [List.length_replicate]
      omega
    have hth : WRITE_BUF_SIZE ≤ baseWriteSt.buffer.length +
        (List.replicate 1025 (0 : Byte)).length := by
      rw [List.length_replicate]
      simp only [baseWriteSt, WRITE_BUF_SIZE, List.length_nil]
      omega
    rw [poll_write_trigger_eval baseWriteSt writer0 idCipher (List.replicate 1025 0) _
        rfl rfl rfl hb hth henc]
    simp only [baseWriteSt, writer0, Option.map_some, List.map_append, List.map_cons,
      List.map_nil, List.nil_append, List.length_take, List.length_append,
      List.length_replicate, List.length_nil, Option.some.injEq]
    rw [show (0 : Nat) + 1025 = 1025 by omega]
    have : min u32Max 1025 = 1025 := by
      simp only [u32Max]
      omega
    rw [this]
    simp
  · decide

/-- C3 amended: `WRITE_BUF_SIZE` is only the threshold at which
`poll_write` starts emitting. Once the internal buffer (after appending
the caller bytes) reaches the threshold, the emitted package carries the
entire buffered plaintext capped at `u32::MAX` bytes — so one package's
plaintext may exceed 1024 bytes but never exceeds `u32::MAX`. -/
theorem package_size_amended (st : EncryptedWriteStream) (w : InnerWriter) (c : CipherBox)
    (buf ct : List Byte) (hfw : st.fut_write = none) (hin : st.inner = some w)
    (hc : st.cipher = some c) (hb : 0 < buf.length)
    (hth : WRITE_BUF_SIZE ≤ st.buffer.length + buf.length)
    (henc : c.encrypt ((st.buffer ++ buf).take (min u32Max (st.buffer.length + buf.length)))
      = .ok ct) :
    poll_write st buf .ok =
      (.ready (.ok buf.length),
       { st with
         buffer := (st.buffer ++ buf).drop (min u32Max (st.buffer.length + buf.length)),
         inner := some { w with written := w.written ++
           [((st.buffer ++ buf).take (min u32Max (st.buffer.length + buf.length)),
             EncryptedPackage.into_bytes ct)] },
         cipher := some c, fut_write := none }) ∧
    ((st.buffer ++ buf).take (min u32Max (st.buffer.length + buf.length))).length
      ≤ u32Max := by
  refine ⟨poll_write_trigger_eval st w c buf ct hfw hin hc hb hth henc, ?_⟩
  simp only [List.length_take, List.length_append]
  omega

/-- The expected stream after the 1024-byte witness write below. -/
def bigWriteSt : EncryptedWriteStream :=
  ⟨some ⟨[(List.replicate 1024 7, EncryptedPackage.into_bytes (List.replicate 1024 7))], 0, false⟩,
   some idCipher, [], none, none, none⟩

/-- Witness for the amended C3 at a concrete threshold-reaching write. -/
theorem package_size_amended_witness :
    poll_write baseWriteSt (List.replicate 1024 7) .ok = (.ready (.ok 1024), bigWriteSt) ∧
    (List.replicate 1024 (7 : Byte)).length ≤ u32Max := by
  have henc : idCipher.encrypt ((baseWriteSt.buffer ++ List.replicate 1024 7).take
      (min u32Max (baseWriteSt.buffer.length + (List.replicate 1024 7 : List Byte).length)))
      = Except.ok ((baseWriteSt.buffer ++ List.replicate 1024 7).take
        (min u32Max (baseWriteSt.buffer.length +
          (List.replicate 1024 7 : List Byte).length))) := rfl
  have hb : 0 < (List.replicate 1024 (7 : Byte)).length := by
    rw [List.length_replicate]
    omega
  have hth : WRITE_BUF_SIZE ≤ baseWriteSt.buffer.length +
      (List.replicate 1024 (7 : Byte)).length := by
    rw [List.length_replicate]
    simp only [baseWriteSt, WRITE_BUF_SIZE, List.length_nil]
    omega
  have h := package_size_amended baseWriteSt writer0 idCipher (List.replicate 1024 7) _
      rfl rfl rfl hb hth henc
  have hmin : min u32Max (baseWriteSt.buffer.length +
      (List.replicate 1024 (7 : Byte)).length) = 1024 := by
    simp only [baseWriteSt, List.length_nil, List.length_replicate, u32Max]
    omega
  constructor
  · rw [h.1]
    rw [show (baseWriteSt.buffer ++ List.replicate 1024 (7 : Byte)) =
        List.replicate 1024 7 by simp [baseWriteSt]]
    rw [hmin]
    simp only [List.take_replicate, List.drop_replicate, List.length_replicate,
      Nat.min_self, Nat.sub_self, List.replicate_zero]
    rfl
  · rw [List.length_replicate]
    simp only [u32Max]
    omega

/-- Concatenation of the plaintext chunks of the completed packages of a
writer, in order. -/
def writtenPlain (w : InnerWriter) : List Byte :=
  (w.written.map Prod.fst).foldr (· ++ ·) []

theorem foldr_append_init (l : List (List Byte)) (init : List Byte) :
    l.foldr (· ++ ·) init = l.foldr (· ++ ·) [] ++ init := by
  induction l with
  | nil => simp
  | cons x xs ih => simp [ih, List.append_assoc]

theorem writtenPlain_append (w : InnerWriter) (p pkg : List Byte) :
    writtenPlain { w with written := w.written ++ [(p, pkg)] } = writtenPlain w ++ p := by
  show ((w.written ++ [(p, pkg)]).map Prod.fst).foldr (· ++ ·) [] = writtenPlain w ++ p
  rw [List.map_append, List.foldr_append]
  simp only [List.map_cons, List.map_nil, List.foldr_cons, List.foldr_nil, List.append_nil]
  exact foldr_append_init _ p

/-- The packages already written by the write half's writer, wherever the
writer currently lives (owned by the stream or by the in-flight write
future). -/
def writersPlain (st : EncryptedWriteStream) : List Byte :=
  match st.inner, st.fut_write with
  | some w, _ => writtenPlain w
  | none, some f => writtenPlain f.writer
  | none, none => []

/-- All plaintext accepted by the write half so far, in order: completed
packages, then the chunk owned by an in-flight write future, then the
internal buffer. -/
def acceptedPlain (st : EncryptedWriteStream) : List Byte :=
  writersPlain st ++
    (match st.fut_write with | some f => f.plaintext | none => []) ++ st.buffer

theorem poll_write_step_ok (st : EncryptedWriteStream) (buf : List Byte) (out : IOOutcome)
    (n : Nat) (st' : EncryptedWriteStream)
    (h : poll_write_step st buf out = (.ready (.ok n), st')) :
    n = buf.length ∧
    ((st.fut_write = none ∧ st' = st) ∨
     (∃ f ct, st.fut_write = some f ∧ out = .ok ∧ f.cipher.encrypt f.plaintext = .ok ct ∧
       st' = { st with
         inner := some { f.writer with
           written := f.writer.written ++ [(f.plaintext, EncryptedPackage.into_bytes ct)] },
         cipher := some f.cipher, fut_write := none })) := by
  obtain ⟨inn, ciph, buffer, fw, ff, fs⟩ := st
  cases fw with
  | none =>
      simp only [poll_write_step, Prod.mk.injEq, PollEx.ready.injEq, Except.ok.injEq] at h
      exact ⟨h.1.symm, .inl ⟨rfl, h.2.symm⟩⟩
  | some f =>
      simp only [poll_write_step, WriteFuture.poll, write_bytes] at h
      cases he : f.cipher.encrypt f.plaintext with
      | error e =>
          rw [he] at h
          simp [except_map_error] at h
      | ok ct =>
          rw [he] at h
          cases out with
          | pending => simp at h
          | ioErr => simp [except_map_error] at h
          | ok =>
              simp only [except_map_ok, Prod.mk.injEq, PollEx.ready.injEq,
                Except.ok.injEq] at h
              exact ⟨h.1.symm, .inr ⟨f, ct, rfl, rfl, he, h.2.symm⟩⟩

/-- C9: whenever `poll_write` returns `Ready(Ok(n))`, `n` is the full
length of the caller's buffer (never a short write), and the caller's
bytes have all been accepted within that call: the plaintext held by the
stream (completed packages ‖ in-flight chunk ‖ buffer) grows by exactly
the caller's bytes. The disjunction hypothesis says the writer is not
duplicated (it is owned by the stream or by the write future, as in
every state the source can reach). -/
theorem poll_write_reports_full_length (st : EncryptedWriteStream) (buf : List Byte)
    (out : IOOutcome) (n : Nat) (st' : EncryptedWriteStream)
    (hdisj : st.fut_write = none ∨ st.inner = none)
    (h : poll_write st buf out = (.ready (.ok n), st')) :
    n = buf.length ∧ acceptedPlain st' = acceptedPlain st ++ buf := by
  obtain ⟨inn, ciph, buffer, fw, ff, fs⟩ := st
  simp only at hdisj
  unfold poll_write at h
  by_cases hb : 0 < buf.length
  · rw [if_pos hb] at h
    simp only at h
    cases hfw : fw with
    | some f =>
        subst hfw
        simp only [Option.isNone_some, Bool.false_eq_true, false_and, if_false] at h
        obtain ⟨hn, hcase⟩ := poll_write_step_ok _ _ _ _ _ h
        rcases hcase with ⟨hcontra, _⟩ | ⟨f', ct, hf', hout, henc, hst'⟩
        · simp at hcontra
        · simp only [Option.some.injEq] at hf'
          subst hf'
          have hinn : inn = none := by
            rcases hdisj with hfalse | hnone
            · simp at hfalse
            · exact hnone
          subst hinn hst'
          refine ⟨hn, ?_⟩
          simp [acceptedPlain, writersPlain, writtenPlain_append, List.append_assoc]
    | none =>
        subst hfw
        by_cases hth : WRITE_BUF_SIZE ≤ buffer.length + buf.length
        · rw [if_pos (by simpa [List.length_append] using hth)] at h
          cases hinn : inn with
          | none =>
              subst hinn
              simp at h
          | some w =>
              subst hinn
              cases hciph : ciph with
              | none =>
                  subst hciph
                  simp at h
              | some c =>
                  subst hciph
                  simp only at h
                  obtain ⟨hn, hcase⟩ := poll_write_step_ok _ _ _ _ _ h
                  rcases hcase with ⟨hcontra, _⟩ | ⟨f', ct, hf', hout, henc, hst'⟩
                  · simp at hcontra
                  · simp only [Option.some.injEq] at hf'
                    subst hf'
                    subst hst'
                    refine ⟨hn, ?_⟩
                    simp only [acceptedPlain, writersPlain, writtenPlain_append,
                      List.append_nil]
                    rw [List.append_assoc (writtenPlain w), List.take_append_drop]
                    simp [List.append_assoc]
        · rw [if_neg (by simpa [List.length_append] using hth)] at h
          obtain ⟨hn, hcase⟩ := poll_write_step_ok _ _ _ _ _ h
          rcases hcase with ⟨_, hst'⟩ | ⟨f', ct, hf', _, _, _⟩
          · subst hst'
            refine ⟨hn, ?_⟩
            cases inn <;> simp [acceptedPlain, writersPlain, List.append_assoc]
          · simp at hf'
  · rw [if_neg hb] at h
    have hnil : buf = [] := by
      cases buf with
      | nil => rfl
      | cons a l => simp at hb
    subst hnil
    obtain ⟨hn, hcase⟩ := poll_write_step_ok _ _ _ _ _ h
    rcases hcase with ⟨hfw, hst'⟩ | ⟨f', ct, hf', hout, henc, hst'⟩
    · subst hst'
      exact ⟨hn, by simp⟩
    · simp only at hf'
      subst hf'
      have hinn : inn = none := by
        rcases hdisj with hfalse | hnone
        · simp at hfalse
        · exact hnone
      subst hinn hst'
      refine ⟨hn, ?_⟩
      simp [acceptedPlain, writersPlain, writtenPlain_append, List.append_assoc]

/-- Witness for C9 at a concrete small write. -/
theorem poll_write_reports_full_length_witness :
    poll_write baseWriteSt [1, 2, 3] .ok =
      (.ready (.ok 3), { baseWriteSt with buffer := [1, 2, 3] }) ∧
    (3 : Nat) = ([1, 2, 3] : List Byte).length ∧
    acceptedPlain { baseWriteSt with buffer := [1, 2, 3] } =
      acceptedPlain baseWriteSt ++ [1, 2, 3] :=
  ⟨rfl,
   (poll_write_reports_full_length baseWriteSt [1, 2, 3] .ok 3
      { baseWriteSt with buffer := [1, 2, 3] } (.inl rfl) rfl).1,
   (poll_write_reports_full_length baseWriteSt [1, 2, 3] .ok 3
      { baseWriteSt with buffer := [1, 2, 3] } (.inl rfl) rfl).2⟩

/-! Theorems about the encrypted read stream. -/

/-- A read stream with three bytes of buffered plaintext whose inner
stream is already at EOF. -/
def eofReadSt : EncryptedReadStream := ⟨some [], some idCipher, [9, 8, 7], none⟩

/-- C4 at the failing input: with 3 bytes of buffered plaintext, a
caller request of 5 bytes and an inner stream at EOF, `poll_read` copies
the 3 buffered bytes into the caller's buffer and then returns
`Ready(Err)` from the failed package read, instead of completing
successfully with the partial delivery the spec describes. -/
theorem poll_read_eof_discards_buffered :
    eofReadSt.remaining = [9, 8, 7] ∧
    (poll_read eofReadSt 5 .ok).1 = .ready (.error .ioError) ∧
    (poll_read eofReadSt 5 .ok).2.1 = [9, 8, 7] :=
  ⟨rfl, rfl, rfl⟩

theorem poll_read_step_ok_len (st : EncryptedReadStream) (fl0 : List Byte) (capLeft : Nat)
    (out : IOOutcome) (fl : List Byte) (st' : EncryptedReadStream)
    (h : poll_read_step st fl0 capLeft out = (.ready (.ok ()), fl, st')) :
    (st.fut = none ∧ fl = fl0) ∨ fl.length = fl0.length + capLeft := by
  obtain ⟨inn, ciph, remaining, fut⟩ := st
  cases fut with
  | none =>
      simp only [poll_read_step, Prod.mk.injEq] at h
      exact .inl ⟨rfl, h.2.1.symm⟩
  | some f =>
      simp only [poll_read_step] at h
      cases hp : f.poll out with
      | pending f' => rw [hp] at h; simp at h
      | ready a =>
          obtain ⟨res, reader, cipher⟩ := a
          rw [hp] at h
          cases res with
          | error e => simp at h
          | ok bytes =>
              simp only at h
              by_cases hc : capLeft - min (remaining ++ bytes).length capLeft = 0
              · rw [if_pos hc] at h
                simp only [Prod.mk.injEq] at h
                refine .inr ?_
                rw [h.2.1.symm]
                simp only [List.length_append, List.length_take] at hc ⊢
                omega
              · rw [if_neg hc] at h
                simp at h

/-- Whenever `poll_read` returns `Ready(Ok(()))`, the bytes delivered
into the caller's buffer during that call are exactly the requested
length: the stream never completes a read successfully with a partial
fill. -/
theorem poll_read_ready_ok_full (st : EncryptedReadStream) (cap : Nat) (out : IOOutcome)
    (fl : List Byte) (st' : EncryptedReadStream)
    (h : poll_read st cap out = (.ready (.ok ()), fl, st')) :
    fl.length = cap := by
  obtain ⟨inn, ciph, remaining, fut⟩ := st
  cases fut with
  | some f =>
      simp only [poll_read] at h
      rcases poll_read_step_ok_len _ _ _ _ _ _ h with ⟨hfut, _⟩ | hlen
      · simp at hfut
      · simpa using hlen
  | none =>
      simp only [poll_read] at h
      by_cases hpos : 0 < cap - min cap remaining.length
      · rw [if_pos hpos] at h
        cases inn with
        | none => cases ciph <;> simp at h
        | some reader =>
            cases ciph with
            | none => simp at h
            | some c =>
                simp only at h
                rcases poll_read_step_ok_len _ _ _ _ _ _ h with ⟨hfut, _⟩ | hlen
                · simp at hfut
                · rw [hlen]
                  simp only [List.length_take]
                  omega
      · rw [if_neg hpos] at h
        simp only [Prod.mk.injEq] at h
        rw [h.2.1.symm]
        simp only [List.length_take]
        omega

/-- When the buffered plaintext already covers the request, `poll_read`
delivers exactly the requested prefix of the buffer and completes; the
residual plaintext persists in `remaining` and the inner stream, cipher
and futures are untouched. -/
theorem poll_read_buffered_delivery (st : EncryptedReadStream) (cap : Nat) (out : IOOutcome)
    (hfut : st.fut = none) (hcap : cap ≤ st.remaining.length) :
    poll_read st cap out =
      (.ready (.ok ()), st.remaining.take cap,
       { st with remaining := st.remaining.drop cap }) := by
  obtain ⟨inn, ciph, remaining, fut⟩ := st
  simp only at hfut hcap
  subst hfut
  have hmc : min cap remaining.length = cap := Nat.min_eq_left hcap
  simp [poll_read, hmc]

/-- When the buffer is empty and the caller requests bytes, `poll_read`
reads one `u32 BE` length-prefixed package from the inner stream,
decrypts it, buffers the plaintext, copies up to the requested length
into the caller's buffer, and completes only when the request is now
fully satisfied — otherwise it returns `Pending` with the partial copy;
the residual plaintext stays in `remaining`. -/
theorem poll_read_package_path (st : EncryptedReadStream) (cap : Nat)
    (stream rest ct plain : List Byte) (c : CipherBox)
    (hfut : st.fut = none) (hrem : st.remaining = []) (hcap : 0 < cap)
    (hin : st.inner = some stream) (hc : st.cipher = some c)
    (hpkg : EncryptedPackage.from_async_read stream = .ok (ct, rest))
    (hdec : c.decrypt ct = .ok plain) :
    poll_read st cap .ok =
      ((if cap - min plain.length cap = 0 then .ready (.ok ()) else .pending),
       plain.take (min plain.length cap),
       { st with
         inner := some rest,
         cipher := some c,
         remaining := plain.drop (min plain.length cap),
         fut := none }) := by
  obtain ⟨inn, ciph, remaining, fut⟩ := st
  simp only at hfut hrem hin hc
  subst hfut hrem hin hc
  simp [poll_read, hcap, poll_read_step, ReadFuture.poll, hpkg, hdec]

end Bromine
